import Mathlib

/-!
# Verification of the Context & Upload Orchestrator

A shallow embedding, in Lean 4, of the context-assembly and upload pipeline of
the `obsidian-ai-support` plugin, together with proofs about the embedded code.

Conventions used throughout:

* JavaScript numbers that hold timestamps, HTTP status codes or array indices
  are embedded as `Int` (they are exact integers in every execution considered
  here); byte lengths as `Nat`.
* JavaScript `undefined`-able values are embedded as `Option`.
* `async` methods performing I/O are embedded as pure functions over an
  explicit environment record that lists the responses the network and the
  vault would deliver, plus a count of the network requests issued.
* A JS `Map` is embedded as an association list with `Map.set` semantics
  (replace in place, append new keys at the end).
* `Array.prototype.sort` is specified by ECMAScript to be stable; it is
  embedded as a stable insertion sort with the same comparator.
-/

namespace ObsidianGemini

/-! ## String helpers

`String.toLower`, `trim`, `startsWith` and `join` from the JS runtime are
embedded through `List Char` so that all definitions evaluate by reduction.
(Only ASCII data appears in the strings this development manipulates, for
which `Char.toLower` agrees with JS `toLowerCase`.) -/

def lowerString (s : String) : String :=
  ⟨s.data.map Char.toLower⟩

def strStartsWith (s p : String) : Bool :=
  p.data.isPrefixOf s.data

def isSpaceChar (c : Char) : Bool :=
  c = ' ' || c = '\t' || c = '\n' || c = '\r'

def trimString (s : String) : String :=
  ⟨((s.data.dropWhile isSpaceChar).reverse.dropWhile isSpaceChar).reverse⟩

def joinStrings : List String → String
  | [] => ""
  | s :: rest => s ++ joinStrings rest

/-! ## MimeRegistry

`GeminiFileManager.getMimeType` / `isMediaFile` / `isImage`
(gemini-file-manager.ts). -/

structure VFile where
  path : String
  basename : String
  extension : String
  mtime : Int
deriving Repr, DecidableEq

def getMimeType (extension : String) : Option String :=
  match lowerString extension with
  | "png" => some "image/png"
  | "jpg" => some "image/jpeg"
  | "jpeg" => some "image/jpeg"
  | "webp" => some "image/webp"
  | "heic" => some "image/heic"
  | "heif" => some "image/heif"
  | "pdf" => some "application/pdf"
  | "txt" => some "text/plain"
  | "md" => some "text/markdown"
  | "csv" => some "text/csv"
  | "js" => some "text/javascript"
  | "py" => some "text/x-python"
  | "html" => some "text/html"
  | "css" => some "text/css"
  | "xml" => some "text/xml"
  | "json" => some "application/json"
  | "mp3" => some "audio/mpeg"
  | "wav" => some "audio/wav"
  | "aac" => some "audio/wav"
  | "mp4" => some "video/mp4"
  | "mpeg" => some "video/mpeg"
  | "mov" => some "video/quicktime"
  | "avi" => some "video/x-msvideo"
  | "flv" => some "video/x-msvideo"
  | "mpg" => some "video/mpeg"
  | "webm" => some "video/webm"
  | "wmv" => some "video/x-ms-wmv"
  | "3gpp" => some "video/3gpp"
  | _ => none

def isMediaFile (f : VFile) : Bool :=
  match getMimeType f.extension with
  | none => false
  | some mime =>
      strStartsWith mime "image/" || strStartsWith mime "audio/" ||
      strStartsWith mime "video/" || mime == "application/pdf"

def isImage (f : VFile) : Bool :=
  match getMimeType f.extension with
  | none => false
  | some mime => strStartsWith mime "image/"

/-! ## UploadManager (`GeminiFileManager`)

The upload cache (`fileCache : Map<string, CachedFile>`), the
case-insensitive header lookup `getHeader`, the processing poll loop
`waitForProcessing`, and the resumable upload `uploadFile`. -/

structure CachedFile where
  uri : String
  mtime : Int
  uploadTime : Int
deriving Repr, DecidableEq

abbrev FileCache := List (String × CachedFile)

def cacheLookup (c : FileCache) (p : String) : Option CachedFile :=
  match c.find? (fun kv => kv.1 == p) with
  | some kv => some kv.2
  | none => none

/-- JS `Map.set`: replace in place if the key exists, append otherwise. -/
def cacheSet : FileCache → String → CachedFile → FileCache
  | [], p, v => [(p, v)]
  | (q, w) :: rest, p, v =>
      if q = p then (p, v) :: rest else (q, w) :: cacheSet rest p v

/-- Embeds `GeminiFileManager.getHeader`: scan the header record for a key equal to
the requested one up to case, returning the first match. -/
def getHeader (headers : List (String × String)) (key : String) : Option String :=
  match headers.find? (fun kv => lowerString kv.1 == lowerString key) with
  | some kv => some kv.2
  | none => none

/-- One response of the `GET .../v1beta/files/{id}` polling endpoint:
HTTP status, JSON `state` field (absent ⟹ `none`) and `error.message`. -/
structure PollResp where
  status : Int
  state : Option String
  errMsg : Option String
deriving Repr, DecidableEq

/-- The body of the `try` block of one polling attempt in `waitForProcessing`:
`ok true` = return (ACTIVE), `ok false` = sleep and poll again,
`error` = an exception was thrown inside the `try`. -/
def pollBody (r : PollResp) : Except String Bool :=
  if r.status ≥ 400 then
    .error ("Failed to check file state: " ++ toString r.status)
  else
    match r.state.getD "PROCESSING" with
    | "ACTIVE" => .ok true
    | "FAILED" => .error ("File processing failed: " ++ r.errMsg.getD "Unknown error")
    | _ => .ok false

/-- The loop of `waitForProcessing`.  The `catch (e)` block of the source
logs every exception thrown inside the `try` — including the
`File processing failed` error thrown two lines above it — and retries, which
is why the `.error` branch below continues the loop.  Returns the outcome
and the number of polling requests issued. -/
def waitGo (polls : Nat → PollResp) : Nat → Nat → Except String Unit × Nat
  | 0, i => (.error "File processing timed out. Please try again later.", i)
  | n + 1, i =>
      match pollBody (polls i) with
      | .ok true => (.ok (), i + 1)
      | .ok false => waitGo polls n (i + 1)
      | .error _ => waitGo polls n (i + 1)

/-- Embeds `GeminiFileManager.waitForProcessing`: up to 12 polling attempts. -/
def waitForProcessing (polls : Nat → PollResp) : Except String Unit × Nat :=
  waitGo polls 12 0

/-- Everything the network and the vault deliver during one `uploadFile` call:
the binary size read from the vault, the two HTTP phases of the resumable
upload, the polling responses and the `Date.now()` value observed when the
cache entry is written. -/
structure UploadEnv where
  contentLen : Nat
  initialStatus : Int
  initialHeaders : List (String × String)
  bytesStatus : Int
  bytesUri : String
  bytesName : String
  polls : Nat → PollResp
  uploadTimestamp : Int

/-- Embeds `GeminiFileManager.uploadFile`, returning the result, the file cache
after the call, and the number of network requests issued.

The source compares `(now - cached.uploadTime) / 3600000 < 47` in floating
point; for the integer inputs involved that comparison is exact and equals
the integer comparison `now - cached.uploadTime < 47 * 3600000` used here.
The source's `if (!uploadUrl)` is true both when the header is absent
(`undefined`) and when its value is the empty string, hence the two error
branches after the header lookup. -/
def uploadFile (cache : FileCache) (file : VFile) (now : Int) (env : UploadEnv) :
    Except String String × FileCache × Nat :=
  let hit :=
    match cacheLookup cache file.path with
    | some c =>
        if c.mtime = file.mtime ∧ now - c.uploadTime < 47 * 3600000 then
          some c.uri
        else none
    | none => none
  match hit with
  | some uri => (.ok uri, cache, 0)
  | none =>
    match getMimeType file.extension with
    | none => (.error ("Unsupported file type: " ++ file.extension), cache, 0)
    | some _mime =>
      if env.contentLen = 0 then
        (.error ("File " ++ file.basename ++ " is empty."), cache, 0)
      else if env.initialStatus ≥ 400 then
        (.error "Initial upload failed", cache, 1)
      else
        match getHeader env.initialHeaders "x-goog-upload-url" with
        | none => (.error "Failed to get upload URL from response headers", cache, 1)
        | some u =>
          if u = "" then
            (.error "Failed to get upload URL from response headers", cache, 1)
          else if env.bytesStatus ≥ 400 then
            (.error "Bytes upload failed", cache, 2)
          else
            match waitForProcessing env.polls with
            | (.error e, n) => (.error e, cache, 2 + n)
            | (.ok _, n) =>
                (.ok env.bytesUri,
                 cacheSet cache file.path
                   ⟨env.bytesUri, file.mtime, env.uploadTimestamp⟩,
                 2 + n)

/-- The conditions under which one `uploadFile` call that misses the cache
runs the whole resumable protocol successfully. -/
def uploadEnvOk (file : VFile) (env : UploadEnv) : Prop :=
  (getMimeType file.extension).isSome ∧
  env.contentLen ≠ 0 ∧
  env.initialStatus < 400 ∧
  (∃ u, getHeader env.initialHeaders "x-goog-upload-url" = some u ∧ u ≠ "") ∧
  env.bytesStatus < 400 ∧
  (waitForProcessing env.polls).1 = .ok ()

/-! ## ContextAssembler — message assembly (`GeminiChatView.handleSend`, step 2)

`processFile` is the helper closure defined inside `handleSend` (main.ts);
`processSelectedFiles` is the loop over the captured selected files,
including the `activeCacheName && !isImg` skip.  Vault reads and uploads are
abstracted into oracles `read`/`upload`; a read failure is caught and logged
by the source, an upload failure is rethrown wrapped. -/

inductive Part where
  | fileData (mimeType uri : String)
  | text (s : String)
deriving Repr, DecidableEq

def contentBlock (label : String) (path content : String) : String :=
  "\n\n--- Content of " ++ label ++ " [[" ++ path ++ "]] ---\n" ++ content ++
  "\n--- End of " ++ label ++ " ---\n"

def processFile (upload : VFile → Except String String)
    (read : VFile → Except String String) (file : VFile) (label : String)
    (acc : List Part × String) : Except String (List Part × String) :=
  if isMediaFile file then
    match upload file with
    | .ok uri =>
        .ok (acc.1 ++ [.fileData ((getMimeType file.extension).getD "application/octet-stream") uri],
             acc.2)
    | .error e => .error ("Failed to upload " ++ file.basename ++ ": " ++ e)
  else
    match read file with
    | .ok content => .ok (acc.1, acc.2 ++ contentBlock label file.path content)
    | .error _ => .ok acc

def processSelectedFiles (upload read : VFile → Except String String)
    (activeCacheName : Option String) :
    List VFile → List Part × String → Except String (List Part × String)
  | [], acc => .ok acc
  | f :: rest, acc =>
      if activeCacheName.isSome && !(isImage f) then
        processSelectedFiles upload read activeCacheName rest acc
      else
        match processFile upload read f "Selected File" acc with
        | .error e => .error e
        | .ok next => processSelectedFiles upload read activeCacheName rest next

/-! ## CacheManager — creation guard (`GeminiChatView.createContextCache`)

The token-count validation and creation stage of `createContextCache`
(main.ts).  The token probe and the `createCache` call are the two oracles;
an `Except.error` result of the embedded function would mean an exception
escaping `createContextCache` into its caller. -/

structure TokenCount where
  totalTokens : Int
deriving Repr, DecidableEq

def cacheValidateCreate (probe : Except String TokenCount)
    (create : Except String String) : Except String (Option String) :=
  match probe with
  | .error _ => .ok none
  | .ok count =>
      if count.totalTokens < 2048 then .ok none
      else
        match create with
        | .ok name => .ok (some name)
        | .error _ => .ok none

/-! ## ResponseInterpreter — citations (`addCitations`)

Grounding metadata as delivered by the remote API, and the citation
insertion of `addCitations` (identical in `GeminiChatView` and
`GeminiApiClient`). -/

structure Segment where
  endIndex : Option Int
deriving Repr, DecidableEq

structure GSupport where
  segment : Option Segment
  groundingChunkIndices : Option (List Int)
deriving Repr, DecidableEq

structure WebInfo where
  uri : Option String
  title : Option String
deriving Repr, DecidableEq

structure GChunk where
  web : Option WebInfo
deriving Repr, DecidableEq

structure GroundingMetadata where
  groundingSupports : Option (List GSupport)
  groundingChunks : Option (List GChunk)
deriving Repr, DecidableEq

/-- The sort key `a.segment?.endIndex || 0` (both `undefined` and `0`
evaluate to `0`). -/
def supportKey (s : GSupport) : Int :=
  (s.segment.bind Segment.endIndex).getD 0

/-- One step of a stable descending insertion sort by `supportKey`: walk past
strictly larger keys, insert before the first element whose key is ≤ ours, so
elements with equal keys keep their original relative order — the behaviour
ECMAScript guarantees for `[...supports].sort((a, b) => endB - endA)`. -/
def insertSupportDesc (a : GSupport) : List GSupport → List GSupport
  | [] => [a]
  | b :: l =>
      if supportKey a < supportKey b then b :: insertSupportDesc a l
      else a :: b :: l

def sortSupportsDesc (l : List GSupport) : List GSupport :=
  l.foldr insertSupportDesc []

/-- The filter `indices.filter(i => i >= 0 && i < chunks.length)`. -/
def validIndexFilter (chunks : List GChunk) (is : List Int) : List Int :=
  is.filter (fun i => decide (0 ≤ i) && decide (i < (chunks.length : Int)))

/-- One element of `citationLinks`: `[n](uri "title")` when the chunk has a
(non-empty) uri, `[n]` otherwise; an empty title falls back to "Source"
(`chunk.web?.title || "Source"`). -/
def citationLink (chunks : List GChunk) (i : Int) : String :=
  let web := (chunks.get? i.toNat).bind GChunk.web
  let uri := (web.bind WebInfo.uri).getD ""
  let t0 := (web.bind WebInfo.title).getD ""
  let title := if t0 = "" then "Source" else t0
  if uri = "" then "[" ++ toString (i + 1) ++ "]"
  else "[" ++ toString (i + 1) ++ "](" ++ uri ++ " \"" ++ title ++ "\")"

/-- Builds `" " + citationLinks.join("")`. -/
def citationString (chunks : List GChunk) (valid : List Int) : String :=
  " " ++ joinStrings (valid.map (citationLink chunks))

/-- JS `String.prototype.slice` index resolution: negative indices count from
the end (clamped at 0), positive ones are clamped at the length. -/
def jsSliceIndex (i : Int) (len : Nat) : Nat :=
  if i < 0 then ((len : Int) + i).toNat else min i.toNat len

/-- Computes `newText.slice(0, endIndex) + citationString + newText.slice(endIndex)`. -/
def jsSplice (t : String) (e : Int) (c : String) : String :=
  ⟨t.data.take (jsSliceIndex e t.length) ++ c.data ++
   t.data.drop (jsSliceIndex e t.length)⟩

/-- The body of the `for (const support of sortedSupports)` loop: skip when
the end offset is `undefined`, the index list is `undefined` or empty, or no
index survives the bounds filter; otherwise splice the citation markup at the
end offset provided it does not exceed the current text length. -/
def citeStep (chunks : List GChunk) (t : String) (s : GSupport) : String :=
  match s.segment.bind Segment.endIndex, s.groundingChunkIndices with
  | some e, some is =>
      if is.isEmpty then t
      else
        let valid := validIndexFilter chunks is
        if valid.isEmpty then t
        else if e ≤ (t.length : Int) then jsSplice t e (citationString chunks valid)
        else t
  | _, _ => t

/-- Embeds `addCitations`: return the text unchanged unless both `groundingSupports`
and `groundingChunks` are present, otherwise process the supports sorted by
descending end offset. -/
def addCitations (t : String) (gm : GroundingMetadata) : String :=
  match gm.groundingSupports, gm.groundingChunks with
  | some supports, some chunks =>
      (sortSupportsDesc supports).foldl (citeStep chunks) t
  | _, _ => t

/-- Specification-side characterization (from the spec's words, to be
compared with `addCitations`): with citations listed in strictly descending
offset order, each citation sits immediately after the prefix of the
original text ending at its own end-offset — i.e. "the resulting text
contains each citation at its original end-offset". -/
def interleave (t : List Char) : List (Nat × List Char) → List Char
  | [] => t
  | (e, c) :: rest => interleave (t.take e) rest ++ c ++ t.drop e

/-- The end offset of a support, as a `Nat` (only used on supports whose
offset is present and non-negative). -/
def supportOffsetNat (s : GSupport) : Nat :=
  ((s.segment.bind Segment.endIndex).getD 0).toNat

/-- The citation markup a support contributes. -/
def supportCitation (chunks : List GChunk) (s : GSupport) : String :=
  citationString chunks (validIndexFilter chunks (s.groundingChunkIndices.getD []))

def supportPairs (chunks : List GChunk) (L : List GSupport) : List (Nat × List Char) :=
  L.map (fun s => (supportOffsetNat s, (supportCitation chunks s).data))

/-- A support that passes every guard of the loop body for a text of length
`len`: a present, in-bounds, non-negative end offset and a non-empty list of
indices of which at least one is in range. -/
def goodSupport (chunks : List GChunk) (len : Nat) (s : GSupport) : Prop :=
  (∃ e : Int, s.segment.bind Segment.endIndex = some e ∧ 0 ≤ e ∧ e ≤ (len : Int)) ∧
  (∃ is : List Int, s.groundingChunkIndices = some is ∧ is ≠ [] ∧
     validIndexFilter chunks is ≠ [])

/-- A support the loop body skips. -/
def skippedSupport (chunks : List GChunk) (s : GSupport) : Prop :=
  s.segment.bind Segment.endIndex = none ∨
  s.groundingChunkIndices = none ∨
  (∃ is, s.groundingChunkIndices = some is ∧ validIndexFilter chunks is = [])

/-! ## ResponseInterpreter — content extraction

The two revisions of the response-content extraction that live in the
repository: `GeminiApiClient.generateContent` (filter + join) and
`GeminiChatView.callGeminiAPI` in main.ts (first matching part). -/

structure RespPart where
  text : Option String
  thought : Option Bool
  thoughtSignature : Option String
deriving Repr, DecidableEq

/-- Embeds `content.parts.filter(p => !p.thought)` — parts whose `thought` flag is
falsy (absent or `false`). -/
def answerParts (parts : List RespPart) : List RespPart :=
  parts.filter (fun p => !(p.thought.getD false))

/-- Embeds `content.parts.filter(p => p.thought === true)`. -/
def thoughtParts (parts : List RespPart) : List RespPart :=
  parts.filter (fun p => p.thought == some true)

def thinkingOnlyPlaceholder : String :=
  "(Thinking process only, no final response generated)"

def noContentPlaceholder : String :=
  "(No response content generated)"

/-- Embeds `GeminiApiClient.generateContent`, content computation: join the answer
parts' texts with a blank line (`join('\n\n')` renders a missing `text` as
the empty string), fall back to the thinking-only placeholder, then to the
no-content placeholder; grounding citations are applied to whatever string
resulted. -/
def clientExtractContent (parts : List RespPart) (gm : Option GroundingMetadata) : String :=
  let cps := answerParts parts
  let tps := thoughtParts parts
  let responseContent :=
    if cps.length > 0 then
      String.intercalate "\n\n" (cps.map (fun p => p.text.getD ""))
    else if tps.length > 0 then thinkingOnlyPlaceholder
    else noContentPlaceholder
  match gm with
  | some g => addCitations responseContent g
  | none => responseContent

/-- Embeds `content.parts.find(p => p.text && p.thought !== true)` — the first part
with a truthy (non-empty) text that is not flagged as a thought. -/
def findContentPart (parts : List RespPart) : Option RespPart :=
  parts.find? (fun p => (p.text.getD "" != "") && !(p.thought == some true))

/-- Embeds `content.parts.find(p => p.thought === true)`. -/
def findThoughtPart (parts : List RespPart) : Option RespPart :=
  parts.find? (fun p => p.thought == some true)

/-- Embeds `GeminiChatView.callGeminiAPI` (main.ts), content computation: use the
first unflagged part with text (with citations), else the thinking-only
placeholder, else fall back to `parts[0].text` when truthy (with citations),
else the no-content placeholder. -/
def mainExtractContent (parts : List RespPart) (gm : Option GroundingMetadata) : String :=
  match findContentPart parts with
  | some p =>
      let rc := p.text.getD ""
      match gm with
      | some g => addCitations rc g
      | none => rc
  | none =>
      match findThoughtPart parts with
      | some _ => thinkingOnlyPlaceholder
      | none =>
          match parts with
          | p0 :: _ =>
              if p0.text.getD "" != "" then
                let rc := p0.text.getD ""
                match gm with
                | some g => addCitations rc g
                | none => rc
              else noContentPlaceholder
          | [] => noContentPlaceholder

/-! ## ConversationController state (`GeminiChatView`)

The session-scoped mutable fields of the view that the claims are about,
with a ghost field `cacheModel` recording the model for which the active
cache was created and a log `deletedCaches` of the `deleteCache` calls
issued. -/

structure ViewState where
  currentModel : String
  activeCacheName : Option String
  cacheModel : Option String
  contextFiles : List VFile
  isActiveContextEnabled : Bool
  history : List String
  deletedCaches : List String
deriving Repr, DecidableEq

/-- Performs `deleteCache` on the active cache followed by `activeCacheName = null`
(the model-change handler, `startNewChat` and `loadChat` all perform exactly
this pair). -/
def dropActiveCache (st : ViewState) : ViewState :=
  match st.activeCacheName with
  | some name =>
      { st with activeCacheName := none, cacheModel := none,
                deletedCaches := st.deletedCaches ++ [name] }
  | none => st

/-- The model dropdown `onChange` handler (initializeChatUI): set the model,
then delete and null the active cache if there is one. -/
def modelChange (st : ViewState) (v : String) : ViewState :=
  dropActiveCache { st with currentModel := v }

/-- Embeds `GeminiChatView.startNewChat`: reset the model to the settings default,
delete/null the active cache, clear the context selection, re-enable the
active-note context, empty the history. -/
def startNewChatSt (defaultModel : String) (st : ViewState) : ViewState :=
  let st1 := dropActiveCache { st with currentModel := defaultModel }
  { st1 with contextFiles := [], isActiveContextEnabled := true, history := [] }

/-- Embeds `GeminiChatView.loadChat` on a file whose stored history is
`loaded ≠ []` (an empty load falls back to `startNewChat`). -/
def loadChatSt (defaultModel : String) (loaded : List String) (st : ViewState) : ViewState :=
  let st1 := dropActiveCache { st with currentModel := defaultModel }
  let st2 := { st1 with contextFiles := [], isActiveContextEnabled := true }
  match loaded with
  | [] => startNewChatSt defaultModel st2
  | _ => { st2 with history := loaded }

/-- The success path of `createContextCache`: `this.activeCacheName =
cache.name`, the cache having been created for `models/${this.currentModel}`
(recorded in the ghost field). -/
def cacheCreated (st : ViewState) (name : String) : ViewState :=
  { st with activeCacheName := some name, cacheModel := some st.currentModel }

/-- The trash button of the cache chip (renderContextChips): delete + null. -/
def clearCacheChip (st : ViewState) : ViewState :=
  dropActiveCache st

/-- Embeds `GeminiChatView.onClose`: best-effort `deleteCache` on the active cache;
the source does not assign `activeCacheName` afterwards — deletion is the
final action before the view is torn down. -/
def onCloseEv (st : ViewState) : ViewState :=
  match st.activeCacheName with
  | some name => { st with deletedCaches := st.deletedCaches ++ [name] }
  | none => st

inductive SessionEvent where
  | modelChange (v : String)
  | newChat
  | load (loaded : List String)
  | cacheCreated (name : String)
  | clearCacheChip
  | close
deriving Repr, DecidableEq

def stepEvent (defaultModel : String) (st : ViewState) : SessionEvent → ViewState
  | .modelChange v => modelChange st v
  | .newChat => startNewChatSt defaultModel st
  | .load loaded => loadChatSt defaultModel loaded st
  | .cacheCreated name => cacheCreated st name
  | .clearCacheChip => clearCacheChip st
  | .close => onCloseEv st

/-- The invariant behind claim C7: a non-null `activeCacheName` was created
for the currently selected model. -/
def cacheInv (st : ViewState) : Prop :=
  st.activeCacheName.isSome → st.cacheModel = some st.currentModel

/-! ## `handleSend` state skeleton and context selection -/

/-- The clearing step after dispatch (main.ts line 774:
`this.contextFiles = [];` — `renderContextChips` touches no state). -/
def clearSelection (st : ViewState) : ViewState :=
  { st with contextFiles := [] }

/-- What `handleSend` consumes besides the view state: the input text, the
API key, the auto-cache setting, and the outcomes of the auto-cache attempt
and of the generate call. -/
structure SendEnv where
  text : String
  apiKey : String
  enableAutoCache : Bool
  autoCacheResult : Option String
  callResult : Except String String
deriving Repr

/-- The state effects of `GeminiChatView.handleSend`: guards, optimistic
user-message append, context clearing, auto-cache attempt, then the model
message or a visible error message. -/
def handleSendState (env : SendEnv) (st : ViewState) : ViewState :=
  if trimString env.text = "" ∧ st.contextFiles = [] ∧ st.isActiveContextEnabled = false then
    st
  else if env.apiKey = "" then st
  else
    let st1 := { st with history := st.history ++ [trimString env.text] }
    let st2 := clearSelection st1
    let st3 :=
      if env.enableAutoCache ∧ st2.activeCacheName = none then
        match env.autoCacheResult with
        | some name => cacheCreated st2 name
        | none => st2
      else st2
    match env.callResult with
    | .ok resp => { st3 with history := st3.history ++ [resp] }
    | .error e => { st3 with history := st3.history ++ ["Error: " ++ e] }

/-- Embeds `GeminiChatView.addContextFile`: append the file to the selection unless
it is already present. -/
def addContextFile (st : ViewState) (f : VFile) : ViewState :=
  if st.contextFiles.contains f then st
  else { st with contextFiles := st.contextFiles ++ [f] }

/-! ## Concrete sample data (used by witnesses and counterexamples) -/

def fileMd : VFile := { path := "Notes/A.md", basename := "A", extension := "md", mtime := 100 }

def fileMp4 : VFile := { path := "clips/talk.mp4", basename := "talk", extension := "mp4", mtime := 5 }

def filePdf : VFile := { path := "papers/p.pdf", basename := "p", extension := "pdf", mtime := 7 }

def filePng : VFile := { path := "img/shot.png", basename := "shot", extension := "png", mtime := 9 }

def pollActive : Nat → PollResp := fun _ => { status := 200, state := some "ACTIVE", errMsg := none }

def pollFailed : Nat → PollResp := fun _ => { status := 200, state := some "FAILED", errMsg := some "disk error" }

def envGood : UploadEnv :=
  { contentLen := 10, initialStatus := 200,
    initialHeaders := [("X-Goog-Upload-URL", "https://upload.example/s1")],
    bytesStatus := 200, bytesUri := "files/u1", bytesName := "files/123",
    polls := pollActive, uploadTimestamp := 1000 }

def envEmptyHeader : UploadEnv :=
  { contentLen := 10, initialStatus := 200,
    initialHeaders := [("X-Goog-Upload-URL", "")],
    bytesStatus := 200, bytesUri := "files/u2", bytesName := "files/456",
    polls := pollActive, uploadTimestamp := 1000 }

def stCache : ViewState :=
  { currentModel := "gemini-2.5-pro", activeCacheName := some "cachedContents/c1",
    cacheModel := some "gemini-2.5-pro", contextFiles := [fileMd],
    isActiveContextEnabled := false, history := ["hello"], deletedCaches := [] }

def stNoCache : ViewState :=
  { currentModel := "gemini-3-pro-preview", activeCacheName := none,
    cacheModel := none, contextFiles := [], isActiveContextEnabled := true,
    history := [], deletedCaches := [] }

def sendEnv0 : SendEnv :=
  { text := " hi ", apiKey := "key", enableAutoCache := false,
    autoCacheResult := none, callResult := .ok "resp" }

def upOk : VFile → Except String String := fun _ => .ok "files/w1"

def rdOk : VFile → Except String String := fun f => .ok ("content of " ++ f.basename)

def partA : RespPart := { text := some "A", thought := none, thoughtSignature := none }

def partB : RespPart := { text := some "B", thought := none, thoughtSignature := none }

def partThought : RespPart := { text := some "T", thought := some true, thoughtSignature := none }

def supA : GSupport :=
  { segment := some { endIndex := some 2 }, groundingChunkIndices := some [0] }

def supB : GSupport :=
  { segment := some { endIndex := some 5 }, groundingChunkIndices := some [1, 7, -1] }

def supNoOffset : GSupport :=
  { segment := none, groundingChunkIndices := some [0] }

def chunksSample : List GChunk :=
  [ { web := some { uri := some "u0", title := some "T0" } },
    { web := some { uri := none, title := some "T1" } } ]

def gmSample : GroundingMetadata :=
  { groundingSupports := some [supA, supB], groundingChunks := some chunksSample }

/-! # Theorems -/

/-! ## Helper lemmas -/

theorem cacheLookup_cacheSet_self (c : FileCache) (p : String) (v : CachedFile) :
    cacheLookup (cacheSet c p v) p = some v := by
  induction c with
  | nil => simp [cacheSet, cacheLookup]
  | cons kv rest ih =>
      obtain ⟨q, w⟩ := kv
      by_cases h : q = p
      · simp [cacheSet, h, cacheLookup]
      · simpa [cacheSet, h, cacheLookup, List.find?] using ih

theorem waitGo_error_is_timeout (polls : Nat → PollResp) :
    ∀ (n i j : Nat) (e : String), waitGo polls n i = (.error e, j) →
      e = "File processing timed out. Please try again later." := by
  intro n
  induction n with
  | zero => intro i j e h; simpa [waitGo, eq_comm] using congrArg (fun x => x.1) h
  | succ n ih =>
      intro i j e h
      unfold waitGo at h
      rcases hb : pollBody (polls i) with e' | b
      · rw [hb] at h; exact ih _ _ _ h
      · cases b <;> rw [hb] at h
        · exact ih _ _ _ h
        · simpa using congrArg (fun x => x.1) h

/-- C3 is a code bug: a poll endpoint that reports `FAILED` on every attempt
does not surface the `File processing failed` error — the `catch` block of
`waitForProcessing` swallows the throw issued two lines above it and
retries, so after the full 12 attempts the call fails with the *timeout*
error instead. -/
theorem waitForProcessing_failed_state_times_out :
    waitForProcessing pollFailed =
      (.error "File processing timed out. Please try again later.", 12) ∧
    pollBody (pollFailed 0) = .error "File processing failed: disk error" := by
  exact ⟨rfl, rfl⟩

/-- C6: the token-count guard of `createContextCache` — a total below 2048
aborts cache creation with a `null` result, a failing probe likewise yields
`null`, and no execution of the validation/creation stage lets an exception
escape to the caller. -/
theorem createContextCache_token_guard :
    (∀ (probe : Except String TokenCount) (create : Except String String) (e : String),
       probe = .error e → cacheValidateCreate probe create = .ok none) ∧
    (∀ (probe : Except String TokenCount) (create : Except String String) (c : TokenCount),
       probe = .ok c → c.totalTokens < 2048 → cacheValidateCreate probe create = .ok none) ∧
    (∀ (probe : Except String TokenCount) (create : Except String String),
       ∃ r, cacheValidateCreate probe create = .ok r) := by
  refine ⟨?_, ?_, ?_⟩
  · intro probe create e h
    subst h
    rfl
  · intro probe create c h hlt
    subst h
    simp [cacheValidateCreate, hlt]
  · intro probe create
    cases probe with
    | error e => exact ⟨none, rfl⟩
    | ok c =>
        by_cases h : c.totalTokens < 2048
        · exact ⟨none, by simp [cacheValidateCreate, h]⟩
        · cases create with
          | ok name => exact ⟨some name, by simp [cacheValidateCreate, h]⟩
          | error e => exact ⟨none, by simp [cacheValidateCreate, h]⟩

theorem createContextCache_token_guard_witness :
    cacheValidateCreate (.ok { totalTokens := 100 }) (.ok "cachedContents/x") = .ok none ∧
    cacheValidateCreate (.error "CountTokens API Error 500") (.ok "cachedContents/x") = .ok none :=
  ⟨createContextCache_token_guard.2.1 _ _ { totalTokens := 100 } rfl (by decide),
   createContextCache_token_guard.1 _ _ "CountTokens API Error 500" rfl⟩

/-- C8: once the guards of `handleSend` pass, the dispatched send leaves the
selected-files list empty while `isActiveContextEnabled` keeps its previous
value; and the clearing step itself (`this.contextFiles = []`) modifies no
other field of the view state. -/
theorem handleSend_clears_selection (env : SendEnv) (st : ViewState)
    (hguard : ¬ (trimString env.text = "" ∧ st.contextFiles = [] ∧
                 st.isActiveContextEnabled = false))
    (hkey : env.apiKey ≠ "") :
    (handleSendState env st).contextFiles = [] ∧
    (handleSendState env st).isActiveContextEnabled = st.isActiveContextEnabled ∧
    (∀ s : ViewState,
       (clearSelection s).contextFiles = [] ∧
       (clearSelection s).isActiveContextEnabled = s.isActiveContextEnabled ∧
       (clearSelection s).activeCacheName = s.activeCacheName ∧
       (clearSelection s).cacheModel = s.cacheModel ∧
       (clearSelection s).currentModel = s.currentModel ∧
       (clearSelection s).history = s.history ∧
       (clearSelection s).deletedCaches = s.deletedCaches) := by
  refine ⟨?_, ?_, fun s => by simp [clearSelection]⟩ <;>
    · unfold handleSendState
      rw [if_neg hguard, if_neg hkey]
      dsimp only
      split <;> (try split) <;> (try split) <;>
        simp_all [clearSelection, cacheCreated]

theorem handleSend_clears_selection_witness :
    (handleSendState sendEnv0 stCache).contextFiles = [] ∧
    (handleSendState sendEnv0 stCache).isActiveContextEnabled =
      stCache.isActiveContextEnabled :=
  ⟨(handleSend_clears_selection sendEnv0 stCache (by decide) (by decide)).1,
   (handleSend_clears_selection sendEnv0 stCache (by decide) (by decide)).2.1⟩

/-- C7: every invalidating event — model change, conversation reset
(`startNewChat`/`loadChat`), view close — issues `deleteCache` on the active
cache; the in-session events also null `activeCacheName` (on view close the
deletion is the final action), and along any event sequence a non-null
`activeCacheName` refers to a cache created for the currently selected
model. -/
theorem activeCache_invalidation :
    (∀ (st : ViewState) (v name : String), st.activeCacheName = some name →
       (modelChange st v).activeCacheName = none ∧
       name ∈ (modelChange st v).deletedCaches) ∧
    (∀ (d : String) (st : ViewState) (name : String), st.activeCacheName = some name →
       (startNewChatSt d st).activeCacheName = none ∧
       name ∈ (startNewChatSt d st).deletedCaches) ∧
    (∀ (d : String) (loaded : List String) (st : ViewState) (name : String),
       st.activeCacheName = some name →
       (loadChatSt d loaded st).activeCacheName = none ∧
       name ∈ (loadChatSt d loaded st).deletedCaches) ∧
    (∀ (st : ViewState) (name : String), st.activeCacheName = some name →
       name ∈ (onCloseEv st).deletedCaches) ∧
    (∀ (d : String) (st : ViewState) (e : SessionEvent),
       cacheInv st → cacheInv (stepEvent d st e)) ∧
    (∀ (d : String) (evs : List SessionEvent) (st : ViewState),
       cacheInv st → cacheInv (evs.foldl (stepEvent d) st)) := by
  have hstep : ∀ (d : String) (st : ViewState) (e : SessionEvent),
      cacheInv st → cacheInv (stepEvent d st e) := by
    intro d st e hinv
    cases e with
    | modelChange v =>
        cases h : st.activeCacheName with
        | none => intro hs; simp_all [stepEvent, modelChange, dropActiveCache, cacheInv]
        | some name => intro hs; simp_all [stepEvent, modelChange, dropActiveCache, cacheInv]
    | newChat =>
        cases h : st.activeCacheName with
        | none => intro hs; simp_all [stepEvent, startNewChatSt, dropActiveCache, cacheInv]
        | some name => intro hs; simp_all [stepEvent, startNewChatSt, dropActiveCache, cacheInv]
    | load loaded =>
        cases h : st.activeCacheName with
        | none =>
            intro hs
            cases loaded <;> simp_all [stepEvent, loadChatSt, startNewChatSt, dropActiveCache, cacheInv]
        | some name =>
            intro hs
            cases loaded <;> simp_all [stepEvent, loadChatSt, startNewChatSt, dropActiveCache, cacheInv]
    | cacheCreated name => intro hs; simp [stepEvent, cacheCreated]
    | clearCacheChip =>
        cases h : st.activeCacheName with
        | none => intro hs; simp_all [stepEvent, clearCacheChip, dropActiveCache, cacheInv]
        | some name => intro hs; simp_all [stepEvent, clearCacheChip, dropActiveCache, cacheInv]
    | close =>
        cases h : st.activeCacheName with
        | none => intro hs; simp_all [stepEvent, onCloseEv, cacheInv]
        | some name => intro hs; simp_all [stepEvent, onCloseEv, cacheInv]
  refine ⟨?_, ?_, ?_, ?_, hstep, ?_⟩
  · intro st v name h
    simp [modelChange, dropActiveCache, h]
  · intro d st name h
    simp [startNewChatSt, dropActiveCache, h]
  · intro d loaded st name h
    cases loaded <;> simp [loadChatSt, startNewChatSt, dropActiveCache, h]
  · intro st name h
    simp [onCloseEv, h]
  · intro d evs
    induction evs with
    | nil => intro st h; exact h
    | cons e rest ih => intro st h; exact ih _ (hstep d st e h)

theorem activeCache_invalidation_witness :
    (modelChange stCache "gemini-3-pro-preview").activeCacheName = none ∧
    "cachedContents/c1" ∈ (modelChange stCache "gemini-3-pro-preview").deletedCaches ∧
    "cachedContents/c1" ∈ (onCloseEv stCache).deletedCaches ∧
    cacheInv ([SessionEvent.cacheCreated "cachedContents/c9",
               SessionEvent.modelChange "gemini-2.5-flash"].foldl
                (stepEvent "gemini-3-pro-preview") stNoCache) :=
  ⟨(activeCache_invalidation.1 stCache "gemini-3-pro-preview" "cachedContents/c1" rfl).1,
   (activeCache_invalidation.1 stCache "gemini-3-pro-preview" "cachedContents/c1" rfl).2,
   activeCache_invalidation.2.2.2.1 stCache "cachedContents/c1" rfl,
   activeCache_invalidation.2.2.2.2.2 "gemini-3-pro-preview" _ stNoCache (by intro h; cases h)⟩

theorem strData_append (s t : String) : (s ++ t).data = s.data ++ t.data := by
  cases s
  cases t
  rfl

theorem processFile_step (up rd : VFile → Except String String) (f : VFile)
    (label : String) (acc next : List Part × String) :
    processFile up rd f label acc = .ok next →
    acc.1 <+: next.1 ∧ acc.2.data <+: next.2.data := by
  intro hp
  unfold processFile at hp
  by_cases hm : isMediaFile f = true
  · rw [if_pos hm] at hp
    rcases hu : up f with e | uri
    · rw [hu] at hp; cases hp
    · rw [hu] at hp
      cases hp
      exact ⟨List.prefix_append _ _, List.prefix_refl _⟩
  · rw [if_neg hm] at hp
    rcases hr : rd f with e | content
    · rw [hr] at hp
      cases hp
      exact ⟨List.prefix_refl _, List.prefix_refl _⟩
    · rw [hr] at hp
      cases hp
      exact ⟨List.prefix_refl _, by rw [strData_append]; exact List.prefix_append _ _⟩

theorem processSelectedFiles_grows (up rd : VFile → Except String String)
    (cache : Option String) :
    ∀ (files : List VFile) (acc out : List Part × String),
      processSelectedFiles up rd cache files acc = .ok out →
      acc.1 <+: out.1 ∧ acc.2.data <+: out.2.data := by
  intro files
  induction files with
  | nil =>
      intro acc out h
      cases h
      exact ⟨List.prefix_refl _, List.prefix_refl _⟩
  | cons f rest ih =>
      intro acc out h
      unfold processSelectedFiles at h
      by_cases hc : (cache.isSome && !(isImage f)) = true
      · rw [if_pos hc] at h
        exact ih acc out h
      · rw [if_neg hc] at h
        rcases hp : processFile up rd f "Selected File" acc with e | next
        · rw [hp] at h; cases h
        · rw [hp] at h
          have step := processFile_step up rd f "Selected File" acc next hp
          have tail := ih next out h
          exact ⟨step.1.trans tail.1, step.2.trans tail.2⟩

theorem processSelectedFiles_media_mem (up rd : VFile → Except String String) :
    ∀ (files : List VFile) (acc out : List Part × String) (f : VFile),
      processSelectedFiles up rd none files acc = .ok out →
      f ∈ files → isMediaFile f = true →
      ∃ uri, up f = .ok uri ∧
        Part.fileData ((getMimeType f.extension).getD "application/octet-stream") uri ∈
          out.1 := by
  intro files
  induction files with
  | nil => intro acc out f h hmem; cases hmem
  | cons g rest ih =>
      intro acc out f h hmem hmedia
      unfold processSelectedFiles at h
      rw [if_neg (by simp)] at h
      rcases hp : processFile up rd g "Selected File" acc with e | next
      · rw [hp] at h; cases h
      · rw [hp] at h
        rcases List.mem_cons.mp hmem with hfg | hfr
        · subst hfg
          unfold processFile at hp
          rw [if_pos hmedia] at hp
          rcases hu : up f with e | uri
          · rw [hu] at hp; cases hp
          · rw [hu] at hp
            cases hp
            refine ⟨uri, rfl, ?_⟩
            have hn : Part.fileData ((getMimeType f.extension).getD "application/octet-stream")
                uri ∈ acc.1 ++ [Part.fileData ((getMimeType f.extension).getD
                  "application/octet-stream") uri] :=
              List.mem_append.mpr (Or.inr (List.mem_singleton.mpr rfl))
            exact (processSelectedFiles_grows up rd none rest _ out h).1.subset hn
        · exact ih next out f h hfr hmedia

theorem processSelectedFiles_text_infix (up rd : VFile → Except String String) :
    ∀ (files : List VFile) (acc out : List Part × String) (f : VFile) (content : String),
      processSelectedFiles up rd none files acc = .ok out →
      f ∈ files → isMediaFile f = false → rd f = .ok content →
      (contentBlock "Selected File" f.path content).data <:+: out.2.data := by
  intro files
  induction files with
  | nil => intro acc out f content h hmem; cases hmem
  | cons g rest ih =>
      intro acc out f content h hmem hmedia hrd
      unfold processSelectedFiles at h
      rw [if_neg (by simp)] at h
      rcases hp : processFile up rd g "Selected File" acc with e | next
      · rw [hp] at h; cases h
      · rw [hp] at h
        rcases List.mem_cons.mp hmem with hfg | hfr
        · subst hfg
          unfold processFile at hp
          rw [if_neg (by simp [hmedia])] at hp
          rw [hrd] at hp
          cases hp
          have hsuf : (contentBlock "Selected File" f.path content).data <:+
              (acc.2 ++ contentBlock "Selected File" f.path content).data := by
            rw [strData_append]; exact List.suffix_append _ _
          exact hsuf.isInfix.trans
            (processSelectedFiles_grows up rd none rest _ out h).2.isInfix
        · exact ih next out f content h hfr hmedia hrd

/-- C2: in message assembly, with an active cache every selected non-image
file is skipped (the loop behaves as if only the images were selected); with
no active cache every selected media file contributes a file-reference part
(its upload must have succeeded) and every selected non-media file's content
block is read and appended to the running text context. -/
theorem assembleMessage_cache_exclusion :
    (∀ (up rd : VFile → Except String String) (c : String) (files : List VFile)
       (acc : List Part × String),
       processSelectedFiles up rd (some c) files acc =
         processSelectedFiles up rd (some c) (files.filter (fun f => isImage f)) acc) ∧
    (∀ (up rd : VFile → Except String String) (files : List VFile)
       (acc out : List Part × String) (f : VFile),
       processSelectedFiles up rd none files acc = .ok out →
       f ∈ files → isMediaFile f = true →
       ∃ uri, up f = .ok uri ∧
         Part.fileData ((getMimeType f.extension).getD "application/octet-stream") uri ∈
           out.1) ∧
    (∀ (up rd : VFile → Except String String) (files : List VFile)
       (acc out : List Part × String) (f : VFile) (content : String),
       processSelectedFiles up rd none files acc = .ok out →
       f ∈ files → isMediaFile f = false → rd f = .ok content →
       (contentBlock "Selected File" f.path content).data <:+: out.2.data) := by
  refine ⟨?_, processSelectedFiles_media_mem, processSelectedFiles_text_infix⟩
  intro up rd c files
  induction files with
  | nil => intro acc; rfl
  | cons f rest ih =>
      intro acc
      by_cases hf : isImage f = true
      · rw [List.filter_cons_of_pos (by simpa using hf)]
        simp only [processSelectedFiles]
        rw [if_neg (by simp [hf]), if_neg (by simp [hf])]
        rcases hp : processFile up rd f "Selected File" acc with e | next
        · rfl
        · exact ih next
      · rw [List.filter_cons_of_neg (by simpa using hf)]
        simp only [processSelectedFiles]
        rw [if_pos (by simp [hf])]
        exact ih acc

theorem assembleMessage_cache_exclusion_witness :
    processSelectedFiles upOk rdOk (some "cachedContents/c1") [fileMd, filePng] ([], "") =
      processSelectedFiles upOk rdOk (some "cachedContents/c1")
        ([fileMd, filePng].filter (fun f => isImage f)) ([], "") ∧
    (∃ uri, upOk filePdf = .ok uri ∧
       Part.fileData ((getMimeType filePdf.extension).getD "application/octet-stream") uri ∈
         [Part.fileData "application/pdf" "files/w1"]) ∧
    (contentBlock "Selected File" fileMd.path "content of A").data <:+:
      (contentBlock "Selected File" fileMd.path "content of A").data :=
  ⟨assembleMessage_cache_exclusion.1 upOk rdOk "cachedContents/c1" [fileMd, filePng] ([], ""),
   assembleMessage_cache_exclusion.2.1 upOk rdOk [filePdf] ([], "")
     ([Part.fileData "application/pdf" "files/w1"], "") filePdf rfl
     (List.mem_singleton.mpr rfl) rfl,
   assembleMessage_cache_exclusion.2.2 upOk rdOk [fileMd] ([], "")
     ([], contentBlock "Selected File" fileMd.path "content of A") fileMd "content of A"
     rfl (List.mem_singleton.mpr rfl) rfl rfl⟩

/-- C9 counterexample: the claim states the message content equals the texts
of all answer parts joined with a blank-line separator; the extraction in
`GeminiChatView.callGeminiAPI` (main.ts) uses only the *first* unflagged
text part, so a response with the two answer parts "A" and "B" yields "A",
not the join "A\n\nB". -/
theorem responseContent_join_cex :
    answerParts [partA, partB] = [partA, partB] ∧
    mainExtractContent [partA, partB] none = "A" ∧
    String.intercalate "\n\n"
        ((answerParts [partA, partB]).map (fun p => p.text.getD "")) = "A\n\nB" ∧
    mainExtractContent [partA, partB] none ≠
      String.intercalate "\n\n"
        ((answerParts [partA, partB]).map (fun p => p.text.getD "")) :=
  ⟨rfl, rfl, rfl, by decide⟩

/-- C9 (amended): both extractions partition a response's parts into thought
parts (`thought === true`) and answer parts; `GeminiApiClient` joins all
answer-part texts with a blank-line separator and yields the thinking-only
placeholder when only thought parts exist, whereas
`GeminiChatView.callGeminiAPI` yields the text of the *first* answer part
that has a non-empty text, with the same placeholder when none exists and a
thought part does. -/
theorem responseContent_extraction :
    (∀ parts : List RespPart, answerParts parts ≠ [] →
       clientExtractContent parts none =
         String.intercalate "\n\n" ((answerParts parts).map (fun p => p.text.getD ""))) ∧
    (∀ parts : List RespPart, parts ≠ [] → answerParts parts = [] →
       clientExtractContent parts none = thinkingOnlyPlaceholder) ∧
    (∀ (parts : List RespPart) (p : RespPart), findContentPart parts = some p →
       mainExtractContent parts none = p.text.getD "") ∧
    (∀ parts : List RespPart, findContentPart parts = none →
       (findThoughtPart parts).isSome →
       mainExtractContent parts none = thinkingOnlyPlaceholder) := by
  refine ⟨?_, ?_, ?_, ?_⟩
  · intro parts h
    simp only [clientExtractContent]
    rw [if_pos (by simpa [List.length_pos] using h)]
  · intro parts hne h
    have hall : ∀ p ∈ parts, (p.thought == some true) = true := by
      intro p hp
      have := List.filter_eq_nil_iff.mp h p hp
      cases ht : p.thought with
      | none => rw [ht] at this; simp at this
      | some b =>
          cases b with
          | true => simp
          | false => rw [ht] at this; simp at this
    have hthought : thoughtParts parts = parts :=
      List.filter_eq_self.mpr hall
    simp only [clientExtractContent]
    rw [if_neg (by simp [h]), if_pos (by rw [hthought]; simpa [List.length_pos] using hne)]
  · intro parts p h
    simp [mainExtractContent, h]
  · intro parts h1 h2
    obtain ⟨q, hq⟩ := Option.isSome_iff_exists.mp h2
    simp [mainExtractContent, h1, hq]

theorem responseContent_extraction_witness :
    clientExtractContent [partA, partB] none =
      String.intercalate "\n\n" ((answerParts [partA, partB]).map (fun p => p.text.getD "")) ∧
    clientExtractContent [partThought] none = thinkingOnlyPlaceholder ∧
    mainExtractContent [partThought] none = thinkingOnlyPlaceholder ∧
    mainExtractContent [partA, partB] none = partA.text.getD "" :=
  ⟨responseContent_extraction.1 [partA, partB] (by decide),
   responseContent_extraction.2.1 [partThought] (by decide) (by decide),
   responseContent_extraction.2.2.2 [partThought] (by decide) (by decide),
   responseContent_extraction.2.2.1 [partA, partB] partA rfl⟩

/-- C1: the upload cache of `uploadFile` — a valid entry (same recorded
modification time, upload age under 47 hours) is returned as-is with zero
network requests; a stale or outdated entry triggers a full fresh upload
whose result replaces the entry; and a second call right after a successful
fresh upload hits the cache with zero network requests. -/
theorem uploadFile_cache_contract :
    (∀ (cache : FileCache) (file : VFile) (now : Int) (env : UploadEnv) (c : CachedFile),
       cacheLookup cache file.path = some c →
       c.mtime = file.mtime → now - c.uploadTime < 47 * 3600000 →
       uploadFile cache file now env = (.ok c.uri, cache, 0)) ∧
    (∀ (cache : FileCache) (file : VFile) (now : Int) (env : UploadEnv) (c : CachedFile),
       cacheLookup cache file.path = some c →
       (c.mtime ≠ file.mtime ∨ 47 * 3600000 ≤ now - c.uploadTime) →
       uploadEnvOk file env →
       uploadFile cache file now env =
         (.ok env.bytesUri,
          cacheSet cache file.path
            { uri := env.bytesUri, mtime := file.mtime, uploadTime := env.uploadTimestamp },
          2 + (waitForProcessing env.polls).2)) ∧
    (∀ (cache : FileCache) (file : VFile) (now now2 : Int) (env env2 : UploadEnv)
       (c : CachedFile),
       cacheLookup cache file.path = some c →
       (c.mtime ≠ file.mtime ∨ 47 * 3600000 ≤ now - c.uploadTime) →
       uploadEnvOk file env →
       now2 - env.uploadTimestamp < 47 * 3600000 →
       uploadFile (uploadFile cache file now env).2.1 file now2 env2 =
         (.ok env.bytesUri, (uploadFile cache file now env).2.1, 0)) := by
  have freshPath : ∀ (cache : FileCache) (file : VFile) (now : Int) (env : UploadEnv)
      (c : CachedFile),
      cacheLookup cache file.path = some c →
      (c.mtime ≠ file.mtime ∨ 47 * 3600000 ≤ now - c.uploadTime) →
      uploadEnvOk file env →
      uploadFile cache file now env =
        (.ok env.bytesUri,
         cacheSet cache file.path
           { uri := env.bytesUri, mtime := file.mtime, uploadTime := env.uploadTimestamp },
         2 + (waitForProcessing env.polls).2) := by
    intro cache file now env c h1 hstale henv
    obtain ⟨hmime, hlen, hinit, ⟨u, hu, hune⟩, hbytes, hwait⟩ := henv
    obtain ⟨m, hm⟩ := Option.isSome_iff_exists.mp hmime
    have hcond : ¬ (c.mtime = file.mtime ∧ now - c.uploadTime < 47 * 3600000) := by
      rcases hstale with h | h
      · exact fun hc => h hc.1
      · exact fun hc => absurd hc.2 (not_lt.mpr h)
    rcases hw : waitForProcessing env.polls with ⟨res, n⟩
    rw [hw] at hwait
    simp only at hwait
    subst hwait
    simp only [uploadFile, h1]
    rw [if_neg hcond]
    simp only [hm]
    rw [if_neg hlen, if_neg (not_le.mpr hinit)]
    simp only [hu]
    rw [if_neg hune, if_neg (not_le.mpr hbytes)]
    simp only [hw]
  have hitPath : ∀ (cache : FileCache) (file : VFile) (now : Int) (env : UploadEnv)
      (c : CachedFile),
      cacheLookup cache file.path = some c →
      c.mtime = file.mtime → now - c.uploadTime < 47 * 3600000 →
      uploadFile cache file now env = (.ok c.uri, cache, 0) := by
    intro cache file now env c h1 h2 h3
    simp only [uploadFile, h1]
    rw [if_pos ⟨h2, h3⟩]
  refine ⟨hitPath, freshPath, ?_⟩
  intro cache file now now2 env env2 c h1 hstale henv hfade
  rw [freshPath cache file now env c h1 hstale henv]
  exact hitPath _ file now2 env2 _ (cacheLookup_cacheSet_self cache file.path _) rfl hfade

theorem uploadFile_cache_contract_witness :
    uploadFile [("clips/talk.mp4", { uri := "files/old", mtime := 4, uploadTime := 0 })]
        fileMp4 50 envGood =
      (.ok "files/u1",
       [("clips/talk.mp4", { uri := "files/u1", mtime := 5, uploadTime := 1000 })], 3) ∧
    uploadFile [("clips/talk.mp4", { uri := "files/u1", mtime := 5, uploadTime := 1000 })]
        fileMp4 2000 envGood =
      (.ok "files/u1",
       [("clips/talk.mp4", { uri := "files/u1", mtime := 5, uploadTime := 1000 })], 0) :=
  ⟨uploadFile_cache_contract.2.1
      [("clips/talk.mp4", { uri := "files/old", mtime := 4, uploadTime := 0 })]
      fileMp4 50 envGood { uri := "files/old", mtime := 4, uploadTime := 0 }
      rfl (Or.inl (by decide))
      ⟨by decide, by decide, by decide, ⟨"https://upload.example/s1", rfl, by decide⟩,
       by decide, rfl⟩,
   uploadFile_cache_contract.1
      [("clips/talk.mp4", { uri := "files/u1", mtime := 5, uploadTime := 1000 })]
      fileMp4 2000 envGood { uri := "files/u1", mtime := 5, uploadTime := 1000 }
      rfl rfl (by decide)⟩

/-- C4 counterexample: the claim states `uploadFile` fails with the
upload-URL error only when no casing variant of `x-goog-upload-url` is
present; but the source's `if (!uploadUrl)` is also true for a present
header whose value is the empty string, so an upload with the casing variant
`X-Goog-Upload-URL` present (value `""`) still fails with that error. -/
theorem uploadFile_header_cex :
    lowerString "X-Goog-Upload-URL" = "x-goog-upload-url" ∧
    getHeader [("X-Goog-Upload-URL", "")] "x-goog-upload-url" = some "" ∧
    uploadFile [] fileMp4 0 envEmptyHeader =
      (.error "Failed to get upload URL from response headers", [], 1) :=
  ⟨by decide, rfl, rfl⟩

/-- C4 (amended): the header lookup is insensitive to the casing of the
stored header keys — re-casing every key leaves the lookup result unchanged
— it returns `none` exactly when no casing variant of the key is present,
and `uploadFile` fails with the upload-URL error exactly when the lookup
returns `none` or the found value is the empty string. -/
theorem getHeader_case_insensitive :
    (∀ (hs : List (String × String)) (key : String) (recase : String → String),
       (∀ s, lowerString (recase s) = lowerString s) →
       getHeader (hs.map (fun kv => (recase kv.1, kv.2))) key = getHeader hs key) ∧
    (∀ (hs : List (String × String)) (key : String),
       getHeader hs key = none ↔ ∀ kv ∈ hs, lowerString kv.1 ≠ lowerString key) ∧
    (∀ (cache : FileCache) (file : VFile) (now : Int) (env : UploadEnv),
       cacheLookup cache file.path = none →
       (getMimeType file.extension).isSome →
       env.contentLen ≠ 0 → env.initialStatus < 400 →
       ((uploadFile cache file now env).1 =
           .error "Failed to get upload URL from response headers" ↔
         (getHeader env.initialHeaders "x-goog-upload-url" = none ∨
          getHeader env.initialHeaders "x-goog-upload-url" = some ""))) := by
  refine ⟨?_, ?_, ?_⟩
  · intro hs key recase hrc
    induction hs with
    | nil => rfl
    | cons kv rest ih =>
        simp only [List.map_cons, getHeader, List.find?] at ih ⊢
        rw [hrc kv.1]
        cases hb : (lowerString kv.1 == lowerString key) with
        | true => rfl
        | false => exact ih
  · intro hs key
    have : getHeader hs key = none ↔
        hs.find? (fun kv => lowerString kv.1 == lowerString key) = none := by
      unfold getHeader
      cases hs.find? (fun kv => lowerString kv.1 == lowerString key) <;> simp
    rw [this, List.find?_eq_none]
    simp
  · intro cache file now env hlook hmime hlen hinit
    obtain ⟨m, hm⟩ := Option.isSome_iff_exists.mp hmime
    rcases hh : getHeader env.initialHeaders "x-goog-upload-url" with _ | u
    · simp [uploadFile, hlook, hm, hlen, not_le.mpr hinit, hh]
    · by_cases hu : u = ""
      · subst hu
        simp [uploadFile, hlook, hm, hlen, not_le.mpr hinit, hh]
      · by_cases hb : env.bytesStatus ≥ 400
        · simp only [uploadFile, hlook, hm, hlen, not_le.mpr hinit, hh]
          simp [hu, hb]
        · rcases hw : waitForProcessing env.polls with ⟨res, n⟩
          cases res with
          | error e =>
              have he := waitGo_error_is_timeout env.polls 12 0 n e hw
              subst he
              simp only [uploadFile, hlook, hm, hlen, not_le.mpr hinit, hh]
              simp [hu, hb, hw]
          | ok a =>
              simp only [uploadFile, hlook, hm, hlen, not_le.mpr hinit, hh]
              simp [hu, hb, hw]

theorem getHeader_case_insensitive_witness :
    getHeader ([("X-Goog-Upload-URL", "https://u")].map (fun kv => (id kv.1, kv.2)))
        "x-goog-upload-url" =
      getHeader [("X-Goog-Upload-URL", "https://u")] "x-goog-upload-url" ∧
    ((uploadFile [] fileMp4 0 envEmptyHeader).1 =
        .error "Failed to get upload URL from response headers" ↔
      (getHeader envEmptyHeader.initialHeaders "x-goog-upload-url" = none ∨
       getHeader envEmptyHeader.initialHeaders "x-goog-upload-url" = some "")) :=
  ⟨getHeader_case_insensitive.1 [("X-Goog-Upload-URL", "https://u")] "x-goog-upload-url"
      id (fun _ => rfl),
   getHeader_case_insensitive.2.2 [] fileMp4 0 envEmptyHeader rfl (by decide)
      (by decide) (by decide)⟩

/-- C10: `addContextFile` is idempotent — a file already selected is never
appended again, and a new file is appended at the end of the selection. -/
theorem addContextFile_idempotent (st : ViewState) (f : VFile) :
    addContextFile (addContextFile st f) f = addContextFile st f ∧
    (f ∈ st.contextFiles → addContextFile st f = st) ∧
    (f ∉ st.contextFiles → (addContextFile st f).contextFiles = st.contextFiles ++ [f]) := by
  refine ⟨?_, ?_, ?_⟩
  · by_cases h : f ∈ st.contextFiles
    · simp [addContextFile, h]
    · simp [addContextFile, h]
  · intro h
    simp [addContextFile, h]
  · intro h
    simp [addContextFile, h]

theorem addContextFile_idempotent_witness :
    addContextFile (addContextFile stNoCache fileMd) fileMd = addContextFile stNoCache fileMd ∧
    (addContextFile stNoCache fileMd).contextFiles = stNoCache.contextFiles ++ [fileMd] :=
  ⟨(addContextFile_idempotent stNoCache fileMd).1,
   (addContextFile_idempotent stNoCache fileMd).2.2 (by decide)⟩

/-! ## Citation insertion (claim C5) -/

theorem strLength_append (s t : String) : (s ++ t).length = s.length + t.length := by
  show (s ++ t).data.length = s.data.length + t.data.length
  rw [strData_append, List.length_append]

theorem strMk_append (a b : List Char) :
    (String.mk a ++ String.mk b : String) = String.mk (a ++ b) := rfl

theorem supportKey_endIndex (s : GSupport) (e : Int)
    (h : s.segment.bind Segment.endIndex = some e) : supportKey s = e := by
  simp [supportKey, h]

theorem insertSupportDesc_perm (a : GSupport) (l : List GSupport) :
    List.Perm (insertSupportDesc a l) (a :: l) := by
  induction l with
  | nil => exact List.Perm.refl _
  | cons b t ih =>
      unfold insertSupportDesc
      by_cases h : supportKey a < supportKey b
      · rw [if_pos h]
        exact (ih.cons b).trans (List.Perm.swap a b t)
      · rw [if_neg h]

theorem sortSupportsDesc_perm (l : List GSupport) : List.Perm (sortSupportsDesc l) l := by
  induction l with
  | nil => exact List.Perm.refl _
  | cons a t ih =>
      simp only [sortSupportsDesc, List.foldr_cons]
      exact (insertSupportDesc_perm a _).trans (ih.cons a)

theorem insertSupportDesc_sorted (a : GSupport) (l : List GSupport)
    (h : l.Pairwise (fun x y => supportKey y ≤ supportKey x)) :
    (insertSupportDesc a l).Pairwise (fun x y => supportKey y ≤ supportKey x) := by
  induction l with
  | nil => simp [insertSupportDesc]
  | cons b t ih =>
      rcases List.pairwise_cons.mp h with ⟨hb, ht⟩
      unfold insertSupportDesc
      by_cases hab : supportKey a < supportKey b
      · rw [if_pos hab]
        refine List.pairwise_cons.mpr ⟨?_, ih ht⟩
        intro y hy
        rcases List.mem_cons.mp ((insertSupportDesc_perm a t).mem_iff.mp hy) with rfl | hyt
        · exact le_of_lt hab
        · exact hb y hyt
      · rw [if_neg hab]
        refine List.pairwise_cons.mpr ⟨?_, h⟩
        intro y hy
        rcases List.mem_cons.mp hy with rfl | hyt
        · exact not_lt.mp hab
        · exact (hb y hyt).trans (not_lt.mp hab)

theorem sortSupportsDesc_sorted (l : List GSupport) :
    (sortSupportsDesc l).Pairwise (fun x y => supportKey y ≤ supportKey x) := by
  induction l with
  | nil => simp [sortSupportsDesc]
  | cons a t ih =>
      simp only [sortSupportsDesc, List.foldr_cons]
      exact insertSupportDesc_sorted a _ ih

theorem sorted_desc_unique :
    ∀ {l₁ l₂ : List GSupport}, List.Perm l₁ l₂ →
      l₁.Pairwise (fun x y => supportKey y ≤ supportKey x) →
      l₂.Pairwise (fun x y => supportKey y < supportKey x) →
      l₁ = l₂ := by
  intro l₁ l₂ hp h1 h2
  induction l₂ generalizing l₁ with
  | nil =>
      have := hp.length_eq
      cases l₁ with
      | nil => rfl
      | cons a t => simp at this
  | cons b t ih =>
      cases l₁ with
      | nil => have := hp.length_eq; simp at this
      | cons a t₁ =>
          rcases List.pairwise_cons.mp h1 with ⟨ha1, ht1⟩
          rcases List.pairwise_cons.mp h2 with ⟨hb2, ht2⟩
          have hab : a = b := by
            by_contra hne
            have hbl : b ∈ a :: t₁ := hp.symm.subset (List.mem_cons_self b t)
            have hal : a ∈ b :: t := hp.subset (List.mem_cons_self a t₁)
            have hb1 : b ∈ t₁ := by
              rcases List.mem_cons.mp hbl with h | h
              · exact absurd h.symm hne
              · exact h
            have ha2 : a ∈ t := by
              rcases List.mem_cons.mp hal with h | h
              · exact absurd h hne
              · exact h
            exact absurd (hb2 a ha2) (not_lt.mpr (ha1 b hb1))
          subst hab
          rw [ih hp.cons_inv ht1 ht2]

theorem citeStep_good (chunks : List GChunk) (t : String) (s : GSupport) (e : Int)
    (he : s.segment.bind Segment.endIndex = some e) (he0 : 0 ≤ e)
    (helen : e ≤ (t.length : Int)) (is : List Int)
    (his : s.groundingChunkIndices = some is) (hne : is ≠ [])
    (hval : validIndexFilter chunks is ≠ []) :
    citeStep chunks t s =
      ⟨t.data.take e.toNat ++ (supportCitation chunks s).data ++ t.data.drop e.toNat⟩ := by
  simp only [citeStep, he, his]
  rw [if_neg (by simpa using hne), if_neg (by simpa using hval), if_pos helen]
  have hmin : jsSliceIndex e t.length = e.toNat := by
    simp only [jsSliceIndex]
    rw [if_neg (not_lt.mpr he0)]
    exact min_eq_left (Int.toNat_le.mpr helen)
  simp only [jsSplice, hmin, supportCitation, his, Option.getD_some]

theorem citeStep_length_ge (chunks : List GChunk) (t : String) (s : GSupport)
    (hg : goodSupport chunks t.length s) : t.length ≤ (citeStep chunks t s).length := by
  obtain ⟨⟨e, he, he0, helen⟩, is, his, hne, hval⟩ := hg
  rw [citeStep_good chunks t s e he he0 helen is his hne hval]
  show t.data.length ≤ (t.data.take e.toNat ++ (supportCitation chunks s).data ++
    t.data.drop e.toNat).length
  simp only [List.length_append, List.length_take, List.length_drop]
  omega

theorem goodSupport_mono (chunks : List GChunk) {len len' : Nat} (h : len ≤ len')
    (s : GSupport) : goodSupport chunks len s → goodSupport chunks len' s := by
  rintro ⟨⟨e, he, he0, helen⟩, his⟩
  exact ⟨⟨e, he, he0, helen.trans (by exact_mod_cast h)⟩, his⟩

theorem citeStep_append (chunks : List GChunk) (u v : String) (s : GSupport)
    (hg : goodSupport chunks u.length s) :
    citeStep chunks (u ++ v) s = citeStep chunks u s ++ v := by
  obtain ⟨⟨e, he, he0, helen⟩, is, his, hne, hval⟩ := hg
  have hlen2 : e ≤ (((u ++ v).length : Nat) : Int) := by
    rw [strLength_append]
    exact helen.trans (by exact_mod_cast Nat.le_add_right _ _)
  rw [citeStep_good chunks (u ++ v) s e he he0 hlen2 is his hne hval,
      citeStep_good chunks u s e he he0 helen is his hne hval]
  have hte : e.toNat ≤ u.data.length := Int.toNat_le.mpr helen
  cases u with
  | mk ud =>
      cases v with
      | mk vd =>
          rw [strMk_append]
          apply congrArg String.mk
          show ((ud ++ vd).take e.toNat ++ _ ++ (ud ++ vd).drop e.toNat) = _
          rw [List.take_append_of_le_length hte, List.drop_append_of_le_length hte]
          simp [List.append_assoc]

theorem foldl_citeStep_append (chunks : List GChunk) :
    ∀ (L : List GSupport) (u v : String),
      (∀ s ∈ L, goodSupport chunks u.length s) →
      L.foldl (citeStep chunks) (u ++ v) = L.foldl (citeStep chunks) u ++ v := by
  intro L
  induction L with
  | nil => intro u v _; rfl
  | cons s rest ih =>
      intro u v h
      simp only [List.foldl_cons]
      rw [citeStep_append chunks u v s (h s (List.mem_cons_self s rest))]
      apply ih
      intro s' hs'
      exact goodSupport_mono chunks
        (citeStep_length_ge chunks u s (h s (List.mem_cons_self s rest))) s'
        (h s' (List.mem_cons_of_mem s hs'))

theorem foldl_citeStep_interleave (chunks : List GChunk) :
    ∀ (L : List GSupport) (t : String),
      L.Pairwise (fun x y => supportKey y < supportKey x) →
      (∀ s ∈ L, goodSupport chunks t.length s) →
      L.foldl (citeStep chunks) t = ⟨interleave t.data (supportPairs chunks L)⟩ := by
  intro L
  induction L with
  | nil =>
      intro t _ _
      cases t
      rfl
  | cons s rest ih =>
      intro t hpw hg
      obtain ⟨⟨e, he, he0, helen⟩, is, his, hne, hval⟩ := hg s (List.mem_cons_self s rest)
      rcases List.pairwise_cons.mp hpw with ⟨hks, hrest⟩
      have hkey : supportKey s = e := supportKey_endIndex s e he
      have hte : e.toNat ≤ t.data.length := Int.toNat_le.mpr helen
  -- the spliced string, viewed as prefix ++ (citation ++ suffix)
      have hulen : (String.mk (t.data.take e.toNat)).length = e.toNat := by
        show (t.data.take e.toNat).length = e.toNat
        rw [List.length_take]
        exact min_eq_left hte
      have hgrest : ∀ s' ∈ rest,
          goodSupport chunks (String.mk (t.data.take e.toNat)).length s' := by
        intro s' hs'
        obtain ⟨⟨e', he', he0', _⟩, his'⟩ := hg s' (List.mem_cons_of_mem s hs')
        refine ⟨⟨e', he', he0', ?_⟩, his'⟩
        rw [hulen]
        have hlt : e' < e := by
          have := hks s' hs'
          rw [hkey, supportKey_endIndex s' e' he'] at this
          exact this
        rw [Int.toNat_of_nonneg he0]
        exact le_of_lt hlt
      simp only [List.foldl_cons]
      rw [citeStep_good chunks t s e he he0 helen is his hne hval]
      have hsplit :
          (⟨t.data.take e.toNat ++ (supportCitation chunks s).data ++
            t.data.drop e.toNat⟩ : String) =
          String.mk (t.data.take e.toNat) ++
            String.mk ((supportCitation chunks s).data ++ t.data.drop e.toNat) := by
        rw [strMk_append, List.append_assoc]
      rw [hsplit, foldl_citeStep_append chunks rest _ _ hgrest,
          ih (String.mk (t.data.take e.toNat)) hrest hgrest]
      rw [strMk_append]
      apply congrArg String.mk
      show interleave (t.data.take e.toNat) (supportPairs chunks rest) ++
          ((supportCitation chunks s).data ++ t.data.drop e.toNat) =
        interleave t.data (supportPairs chunks (s :: rest))
      have hoff : supportOffsetNat s = e.toNat := by
        simp [supportOffsetNat, he]
      simp only [supportPairs, List.map_cons, interleave, hoff, List.append_assoc]

/-- C5: `addCitations` processes the grounding supports in strictly
descending end-offset order (whatever order the metadata lists them in):
when every support carries an in-bounds offset and at least one in-range
chunk index, the result is exactly the original text with each support's
citation markup spliced in at that support's own end-offset (`interleave`).
A support with an undefined end-offset, undefined index list, or no index
surviving the bounds filter is skipped entirely (both as a single step and
anywhere inside the processed list); the chunk indices used are exactly
those surviving the non-negative/in-range filter; and an offset beyond the
current text length leaves the text unchanged. -/
theorem addCitations_spec :
    (∀ (t : String) (gm : GroundingMetadata) (supports : List GSupport)
       (chunks : List GChunk) (L : List GSupport),
       gm.groundingSupports = some supports →
       gm.groundingChunks = some chunks →
       List.Perm supports L →
       L.Pairwise (fun x y => supportKey y < supportKey x) →
       (∀ s ∈ L, goodSupport chunks t.length s) →
       addCitations t gm = ⟨interleave t.data (supportPairs chunks L)⟩) ∧
    (∀ (chunks : List GChunk) (t : String) (s : GSupport),
       skippedSupport chunks s → citeStep chunks t s = t) ∧
    (∀ (chunks : List GChunk) (t : String) (A B : List GSupport) (s : GSupport),
       skippedSupport chunks s →
       (A ++ s :: B).foldl (citeStep chunks) t = (A ++ B).foldl (citeStep chunks) t) ∧
    (∀ (chunks : List GChunk) (t : String) (s : GSupport) (is : List Int),
       s.groundingChunkIndices = some is →
       citeStep chunks t s =
         citeStep chunks t
           ({ s with groundingChunkIndices := some (validIndexFilter chunks is) })) ∧
    (∀ (chunks : List GChunk) (t : String) (s : GSupport) (e : Int),
       s.segment.bind Segment.endIndex = some e → (t.length : Int) < e →
       citeStep chunks t s = t) := by
  have hskip : ∀ (chunks : List GChunk) (t : String) (s : GSupport),
      skippedSupport chunks s → citeStep chunks t s = t := by
    intro chunks t s h
    rcases h with h | h | ⟨is, his, hval⟩
    · rcases hi : s.groundingChunkIndices with _ | is <;> simp [citeStep, h, hi]
    · rcases hb : s.segment.bind Segment.endIndex with _ | e <;> simp [citeStep, h, hb]
    · rcases hb : s.segment.bind Segment.endIndex with _ | e
      · simp [citeStep, hb, his]
      · by_cases hie : is = []
        · subst hie
          simp [citeStep, hb, his]
        · simp only [citeStep, hb, his]
          rw [if_neg (by simpa using hie), if_pos (by simpa using hval)]
  refine ⟨?_, hskip, ?_, ?_, ?_⟩
  · intro t gm supports chunks L hs hc hperm hL hgood
    simp only [addCitations, hs, hc]
    rw [sorted_desc_unique ((sortSupportsDesc_perm supports).trans hperm)
        (sortSupportsDesc_sorted supports) hL]
    exact foldl_citeStep_interleave chunks L t hL hgood
  · intro chunks t A B s h
    rw [List.foldl_append, List.foldl_append, List.foldl_cons, hskip chunks _ s h]
  · intro chunks t s is his
    rcases hb : s.segment.bind Segment.endIndex with _ | e
    · simp [citeStep, hb]
    · by_cases hie : is = []
      · subst hie
        simp [citeStep, hb, his, validIndexFilter]
      · by_cases hve : validIndexFilter chunks is = []
        · have hLHS : citeStep chunks t s = t := by
            simp only [citeStep, hb, his]
            rw [if_neg (by simpa using hie), if_pos (by simpa using hve)]
          have hRHS : citeStep chunks t
              { s with groundingChunkIndices := some (validIndexFilter chunks is) } = t := by
            simp only [citeStep, hb, hve]
            rw [if_pos (by simp)]
          rw [hLHS, hRHS]
        · have hidem : validIndexFilter chunks (validIndexFilter chunks is) =
              validIndexFilter chunks is := by
            simp only [validIndexFilter, List.filter_filter]
            apply List.filter_congr
            intro a _
            cases h0 : decide (0 ≤ a) <;> cases h1 : decide (a < (chunks.length : Int)) <;> rfl
          have hLHS : citeStep chunks t s =
              if e ≤ (t.length : Int) then
                jsSplice t e (citationString chunks (validIndexFilter chunks is))
              else t := by
            simp only [citeStep, hb, his]
            rw [if_neg (by simpa using hie), if_neg (by simpa using hve)]
          have hRHS : citeStep chunks t
              { s with groundingChunkIndices := some (validIndexFilter chunks is) } =
              if e ≤ (t.length : Int) then
                jsSplice t e (citationString chunks (validIndexFilter chunks is))
              else t := by
            simp only [citeStep, hb, hidem]
            rw [if_neg (by simpa using hve), if_neg (by simpa using hve)]
          rw [hLHS, hRHS]
  · intro chunks t s e he hgt
    rcases hi : s.groundingChunkIndices with _ | is
    · simp [citeStep, he, hi]
    · by_cases hie : is = []
      · subst hie
        simp [citeStep, he, hi]
      · by_cases hve : validIndexFilter chunks is = []
        · simp only [citeStep, he, hi]
          rw [if_neg (by simpa using hie), if_pos (by simpa using hve)]
        · simp only [citeStep, he, hi]
          rw [if_neg (by simpa using hie), if_neg (by simpa using hve),
              if_neg (not_le.mpr hgt)]

theorem addCitations_spec_witness :
    addCitations "abcdef" gmSample =
      ⟨interleave "abcdef".data (supportPairs chunksSample [supB, supA])⟩ ∧
    citeStep chunksSample "abcdef" supNoOffset = "abcdef" :=
  ⟨addCitations_spec.1 "abcdef" gmSample [supA, supB] chunksSample [supB, supA]
      rfl rfl (List.Perm.swap supB supA [])
      (by decide)
      (by
        intro s hs
        rcases List.mem_cons.mp hs with rfl | hs2
        · exact ⟨⟨5, rfl, by decide, by decide⟩, ⟨[1, 7, -1], rfl, by decide, by decide⟩⟩
        · rcases List.mem_cons.mp hs2 with rfl | hs3
          · exact ⟨⟨2, rfl, by decide, by decide⟩, ⟨[0], rfl, by decide, by decide⟩⟩
          · cases hs3),
   addCitations_spec.2.1 chunksSample "abcdef" supNoOffset (Or.inl rfl)⟩

end ObsidianGemini
